import Mathlib

/-!
Verification of the nomino batch-rename tool: a shallow embedding of
`src/main.rs` (`read_source`, `rename_files`, `run_app`, `main`) and
`src/input/source.rs` (`Source::new_regex`, `Source::new_map`,
`Source::new_sort`), with theorems settling the specification claims.

Filesystem entries are modelled explicitly: the executor's existence
checks, directory creation and renames act on a finite state of files
and directories.  External library behaviour (regex compilation, JSON
parsing, `HashMap` iteration order) is passed in as parameters, since it
is not code of this repository.
-/

namespace Nomino

/-- A path as the executor manipulates it: `parent` is the directory
portion (`Path::parent`, empty for a bare file name) and `fileName` the
final component (`Path::file_name`). -/
structure FilePath where
  parent : String
  fileName : String
deriving DecidableEq, Repr

/-- The textual form of a path (`Path::to_string_lossy`). -/
def FilePath.render (p : FilePath) : String :=
  if p.parent = "" then p.fileName else p.parent ++ "/" ++ p.fileName

/-- One round of the collision loop:
`file_path.with_file_name(String::from("_") + file_name)`. -/
def FilePath.underscored (p : FilePath) : FilePath :=
  { p with fileName := "_" ++ p.fileName }

/-- Iterate the underscore transform `k` times. -/
def FilePath.underscoredIter : Nat → FilePath → FilePath
  | 0, p => p
  | k + 1, p => (FilePath.underscoredIter k p).underscored

/-- Filesystem state: the set of regular files and the set of directories
(both as lists without a meaningful order). -/
structure Fs where
  files : List FilePath
  dirs : List String
deriving DecidableEq, Repr

/-- Existence check (`Path::exists`): true for files and for directories. -/
def Fs.pathExists (fs : Fs) (p : FilePath) : Bool :=
  decide (p ∈ fs.files) || decide (p.render ∈ fs.dirs)

/-- An upper bound on the name lengths present in the state, used to show
the collision loop's fuel is sufficient. -/
def Fs.maxLen (fs : Fs) : Nat :=
  max (fs.files.foldr (fun p m => max p.fileName.length m) 0)
    (fs.dirs.foldr (fun d m => max d.length m) 0)

/-- The collision loop `while file_path.exists() { prepend "_" }`,
written with explicit fuel so that it is structurally recursive; `avoid`
below supplies fuel proven sufficient (once the file name is longer than
every name in the state, nothing can collide). -/
def avoidFuel : Nat → Fs → FilePath → FilePath
  | 0, _, p => p
  | n + 1, fs, p => if fs.pathExists p then avoidFuel n fs p.underscored else p

/-- Destination adjustment of `rename_files` (main.rs lines 59-74): keep
prepending an underscore while the candidate exists. -/
def avoid (fs : Fs) (p : FilePath) : FilePath :=
  avoidFuel (fs.maxLen + 1) fs p

/-- The chain of ancestor directories that `fs::create_dir_all` creates
for a directory path, accumulated over its `/`-separated components. -/
def dirChainAux : List Char → String → List String
  | [], acc => if acc.length = 0 then [] else [acc]
  | c :: rest, acc =>
    if c = '/' then
      (if acc.length = 0 then [] else [acc]) ++ dirChainAux rest (acc.push c)
    else
      dirChainAux rest (acc.push c)

/-- All ancestors of directory `d`, shortest first (e.g. `a/b` gives
`[a, a/b]`). -/
def dirChain (d : String) : List String :=
  dirChainAux d.toList ""

/-- Add directories to the state, skipping those already present. -/
def addDirs (dirs : List String) (newDirs : List String) : List String :=
  newDirs.foldl (fun acc d => if d ∈ acc then acc else acc.concat d) dirs

/-- Directory creation, `fs::create_dir_all(file_path.parent())`, as performed by
`rename_files` when `mkdir` is set; failure (empty parent) is ignored. -/
def Fs.createDirAll (fs : Fs) (d : String) : Fs :=
  { fs with dirs := addDirs fs.dirs (dirChain d) }

/-- Rename, `fs::rename(input, file_path)`: fails when the source file does not
exist or the destination's parent directory is missing; on success the
source entry is removed and the destination entry added. -/
def Fs.rename (fs : Fs) (src dst : FilePath) : Except String Fs :=
  if ¬ (src ∈ fs.files) then
    .error "No such file or directory"
  else if dst.parent ≠ "" ∧ ¬ (dst.parent ∈ fs.dirs) then
    .error "No such file or directory (destination)"
  else
    .ok { fs with files :=
      if dst ∈ fs.files.erase src then fs.files.erase src
      else (fs.files.erase src).concat dst }

/-- Per-pair outcome of the executor (spec `RenameOutcome`). -/
inductive Outcome where
  | renamed
  | skipped
  | failed
deriving DecidableEq, Repr

/-- Flags passed to `rename_files`. -/
structure Config where
  testMode : Bool
  needMap : Bool
  overwrite : Bool
  mkdir : Bool
deriving DecidableEq, Repr

/-- Insertion into the result map (`serde_json::Map::insert`): replace
the value when the key is present, otherwise append the entry. -/
def insertEntry (k v : FilePath) (m : List (FilePath × FilePath)) :
    List (FilePath × FilePath) :=
  if m.any (fun e => e.1 = k) then
    m.map (fun e => if e.1 = k then (k, v) else e)
  else
    m.concat (k, v)

/-- Executor state threaded through the loop of `rename_files`: the live
filesystem, the optional result map (destination, source), the aggregate
failure flag `with_err`, the emitted diagnostics (failed input and I/O
reason, in emission order) and the per-pair outcomes. -/
structure ExecState where
  fs : Fs
  map : Option (List (FilePath × FilePath))
  withErr : Bool
  diags : List (FilePath × String)
  outcomes : List Outcome
deriving DecidableEq, Repr

/-- The destination actually used for a pair: the raw output when
overwriting is permitted, otherwise the collision-adjusted one. -/
def destOf (cfg : Config) (fs : Fs) (out : FilePath) : FilePath :=
  if cfg.overwrite then out else avoid fs out

/-- Directory auto-creation step (main.rs lines 75-79): performed for the
adjusted destination's parent, before the dry-run check. -/
def mkdirStep (cfg : Config) (fs : Fs) (d : FilePath) : Fs :=
  if cfg.mkdir ∧ d.parent ≠ "" then fs.createDirAll d.parent else fs

/-- One iteration of the loop of `rename_files` (main.rs lines 56-99) on
the pair `(input, output)`. -/
def renameStep (cfg : Config) (s : ExecState) (pr : FilePath × FilePath) :
    ExecState :=
  let input := pr.1
  let d := destOf cfg s.fs pr.2
  let fs1 := mkdirStep cfg s.fs d
  if cfg.testMode then
    { s with
      fs := fs1
      map := s.map.map (insertEntry d input)
      outcomes := s.outcomes.concat .skipped }
  else
    match fs1.rename input d with
    | .ok fs2 =>
      { s with
        fs := fs2
        map := s.map.map (insertEntry d input)
        outcomes := s.outcomes.concat .renamed }
    | .error reason =>
      { s with
        fs := fs1
        withErr := true
        diags := s.diags.concat (input, reason)
        outcomes := s.outcomes.concat .failed }

/-- The loop of `rename_files`, folded over the pairing sequence. -/
def rename_files (cfg : Config) : ExecState → List (FilePath × FilePath) → ExecState
  | s, [] => s
  | s, pr :: rest => rename_files cfg (renameStep cfg s pr) rest

/-- Initial executor state: `map = need_map.then(Map::new)`,
`with_err = false`. -/
def initState (cfg : Config) (fs : Fs) : ExecState :=
  { fs := fs
    map := if cfg.needMap then some [] else none
    withErr := false
    diags := []
    outcomes := [] }

/-- A full `rename_files` invocation from a fresh state. -/
def renameRun (cfg : Config) (fs : Fs) (pairs : List (FilePath × FilePath)) :
    ExecState :=
  rename_files cfg (initState cfg fs) pairs

/-- The destination a step will use, read off the current state. -/
def stepDest (cfg : Config) (s : ExecState) (pr : FilePath × FilePath) : FilePath :=
  destOf cfg s.fs pr.2

/-- Whether the rename a (non-dry-run) step attempts would succeed. -/
def stepRenameOk (cfg : Config) (s : ExecState) (pr : FilePath × FilePath) : Bool :=
  match (mkdirStep cfg s.fs (stepDest cfg s pr)).rename pr.1 (stepDest cfg s pr) with
  | .ok _ => true
  | .error _ => false

/-- Lock-step condition comparing a real run (`cfgR`, state `sR`) with a
dry run (`cfgD`, state `sD`): at every step the two computed destinations
agree and the real rename succeeds. -/
def agreeOk (cfgR cfgD : Config) : ExecState → ExecState → List (FilePath × FilePath) → Bool
  | _, _, [] => true
  | sR, sD, pr :: rest =>
    decide (stepDest cfgR sR pr = stepDest cfgD sD pr) && stepRenameOk cfgR sR pr &&
      agreeOk cfgR cfgD (renameStep cfgR sR pr) (renameStep cfgD sD pr) rest

/-! ## Source construction (src/input/source.rs) -/

/-- Enum `SortOrder` from source.rs. -/
inductive SortOrder where
  | asc
  | desc
deriving DecidableEq, Repr

/-- A compiled regular expression; only its text matters to the claims,
compilation itself (the external `regex` crate) is a parameter below. -/
structure Rgx where
  pattern : String
deriving DecidableEq, Repr

/-- The three source strategies of source.rs. -/
inductive Source where
  | regex (re : Rgx) (depth : Nat) (maxDepth : Option Nat)
  | map (pairs : List (String × String))
  | sort (order : SortOrder)
deriving DecidableEq, Repr

/-- The error values the resolver can surface: the missing-selector
`SourceError` of `read_source`, the `SortOrderError` echoing its token,
regex compilation errors, and mapping-file I/O or parse errors. -/
inductive SourceErr where
  | missingSource
  | sortOrder (token : String)
  | patternError (msg : String)
  | ioOrParse (msg : String)
deriving DecidableEq, Repr

/-- Rust's `std::path::MAIN_SEPARATOR` on Unix. -/
def MAIN_SEPARATOR : Char := '/'

/-- Constructor `Source::new_regex`: compile the pattern (via the external crate,
here the parameter `compile`) and resolve the depth as the supplied one,
defaulting to the count of path separators in the pattern text plus 1. -/
def new_regex (compile : String → Except SourceErr Rgx) (pattern : String)
    (depth maxDepth : Option Nat) : Except SourceErr Source :=
  (compile pattern).map (fun re =>
    .regex re
      (depth.getD ((pattern.toList.filter (fun c => c = MAIN_SEPARATOR)).length + 1))
      maxDepth)

/-- One `HashMap::insert` on the association list modelling the map's
contents: an existing key gets its value replaced, a new key is added. -/
def hmInsert (m : List (String × String)) (kv : String × String) :
    List (String × String) :=
  if m.any (fun e => e.1 = kv.1) then
    m.map (fun e => if e.1 = kv.1 then kv else e)
  else
    m.concat kv

/-- The contents of the `HashMap<String, String>` that serde deserializes
the mapping file into: entries inserted in file order. -/
def hmOfEntries (entries : List (String × String)) : List (String × String) :=
  entries.foldl hmInsert []

/-- Constructor `Source::new_map`: read and JSON-parse the file (external; the parsed
entries in file order, or the I/O or parse error, are the parameter
`contents`), deserialize into a `HashMap` and collect its iteration —
whose order is unspecified, modelled by the parameter `hashIter` — into
the pair sequence. -/
def new_map (hashIter : List (String × String) → List (String × String))
    (contents : Except SourceErr (List (String × String))) :
    Except SourceErr Source :=
  contents.map (fun entries => .map (hashIter (hmOfEntries entries)))

/-- ASCII case folding of one character, as `str::to_lowercase` performs
it on the ASCII range (the only range the asc/desc comparison can
match). -/
def charToLowercase (c : Char) : Char :=
  if 'A' ≤ c ∧ c ≤ 'Z' then Char.ofNat (c.toNat + 32) else c

/-- Rust's `to_lowercase()` on the token. -/
def toLowercase (s : String) : String :=
  ⟨s.data.map charToLowercase⟩

/-- Constructor `Source::new_sort`: lowercase the token and match it against
`asc`/`desc`, otherwise fail echoing the original token. -/
def new_sort (order : String) : Except SourceErr Source :=
  match toLowercase order with
  | "asc" => .ok (.sort .asc)
  | "desc" => .ok (.sort .desc)
  | _ => .error (.sortOrder order)

instance {ε α : Type} [DecidableEq ε] [DecidableEq α] : DecidableEq (Except ε α) :=
  fun a b =>
    match a, b with
    | .ok x, .ok y =>
      if h : x = y then .isTrue (by rw [h])
      else .isFalse (fun hh => h (by injection hh))
    | .error x, .error y =>
      if h : x = y then .isTrue (by rw [h])
      else .isFalse (fun hh => h (by injection hh))
    | .ok _, .error _ => .isFalse (fun hh => by cases hh)
    | .error _, .ok _ => .isFalse (fun hh => by cases hh)

/-! ## CLI driver (src/main.rs) -/

/-- Function `read_source` from main.rs: dispatch on which selector options are
present, regex first, then sort, then map; only when none is present
produce the missing-selector error. -/
def read_source (compile : String → Except SourceErr Rgx)
    (hashIter : List (String × String) → List (String × String))
    (readMapFile : String → Except SourceErr (List (String × String)))
    (regex sortOpt mapOpt : Option String) : Except SourceErr Source :=
  match regex, sortOpt, mapOpt with
  | some pattern, _, _ => new_regex compile pattern none none
  | _, some order, _ => new_sort order
  | _, _, some filename => new_map hashIter (readMapFile filename)
  | _, _, _ => .error .missingSource

/-- The inputs `run_app` would assemble before calling `rename_files`:
configuration resolution (argument parsing, source construction,
formatter construction, context creation) collapsed into one fallible
step, plus the initial filesystem and the pairing sequence. -/
structure Resolved where
  cfg : Config
  fs : Fs
  pairs : List (FilePath × FilePath)

/-- Function `run_app` from main.rs: propagate any configuration error, run
`rename_files`, optionally write the generated map (`writeFails` models
that write failing), and return the aggregate failure flag. -/
def run_app (resolved : Except SourceErr Resolved)
    (generate writeFails : Bool) : Except SourceErr Bool :=
  match resolved with
  | .error e => .error e
  | .ok r =>
    let res := renameRun r.cfg r.fs r.pairs
    if generate ∧ writeFails then .error (.ioOrParse "write failed")
    else .ok res.withErr

/-- Function `main` from main.rs: exit 0 on `Ok(false)`, exit 1 on `Ok(true)` or
on any error. -/
def mainExit (resolved : Except SourceErr Resolved)
    (generate writeFails : Bool) : Nat :=
  match run_app resolved generate writeFails with
  | .ok true => 1
  | .ok false => 0
  | .error _ => 1

/-! ## Helper lemmas -/

theorem foldr_max_le {α : Type} (f : α → Nat) (l : List α) (x : α) (hx : x ∈ l) :
    f x ≤ l.foldr (fun a m => max (f a) m) 0 := by
  induction l with
  | nil => cases hx
  | cons a t ih =>
    rcases List.mem_cons.mp hx with h | h
    · subst h; exact le_max_left _ _
    · exact le_trans (ih h) (le_max_right _ _)

theorem FilePath.length_underscored (p : FilePath) :
    p.underscored.fileName.length = p.fileName.length + 1 := by
  have h1 : ("_" ++ p.fileName).length = "_".length + p.fileName.length :=
    String.length_append _ _
  have h2 : "_".length = 1 := rfl
  simp only [FilePath.underscored]
  omega

theorem FilePath.length_le_render (p : FilePath) :
    p.fileName.length ≤ p.render.length := by
  unfold FilePath.render
  split
  · exact le_refl _
  · rw [String.length_append]; omega

theorem Fs.pathExists_eq_false (fs : Fs) (p : FilePath)
    (h : fs.maxLen < p.fileName.length) : fs.pathExists p = false := by
  have hf : p ∉ fs.files := by
    intro hm
    have h1 : p.fileName.length ≤ fs.files.foldr (fun q m => max q.fileName.length m) 0 :=
      foldr_max_le (fun q : FilePath => q.fileName.length) fs.files p hm
    have h2 : fs.files.foldr (fun q m => max q.fileName.length m) 0 ≤ fs.maxLen :=
      le_max_left _ _
    have h3 : p.fileName.length ≤ fs.maxLen := le_trans h1 h2
    omega
  have hd : p.render ∉ fs.dirs := by
    intro hm
    have h1 : p.render.length ≤ fs.dirs.foldr (fun d m => max d.length m) 0 :=
      foldr_max_le (fun d : String => d.length) fs.dirs p.render hm
    have h2 : fs.dirs.foldr (fun d m => max d.length m) 0 ≤ fs.maxLen :=
      le_max_right _ _
    have h3 := p.length_le_render
    omega
  simp [Fs.pathExists, hf, hd]

theorem FilePath.underscoredIter_inner (k : Nat) (p : FilePath) :
    FilePath.underscoredIter k p.underscored = FilePath.underscoredIter (k + 1) p := by
  induction k with
  | zero => rfl
  | succ k ih => simp [FilePath.underscoredIter, ih]

theorem avoidFuel_spec :
    ∀ (n : Nat) (fs : Fs) (p : FilePath), fs.maxLen < p.fileName.length + n →
    ∃ k, avoidFuel n fs p = FilePath.underscoredIter k p ∧
      fs.pathExists (FilePath.underscoredIter k p) = false ∧
      ∀ j, j < k → fs.pathExists (FilePath.underscoredIter j p) = true := by
  intro n
  induction n with
  | zero =>
    intro fs p h
    exact ⟨0, rfl, fs.pathExists_eq_false p (by omega), fun j hj => absurd hj (by omega)⟩
  | succ n ih =>
    intro fs p h
    by_cases hex : fs.pathExists p = true
    · have h' : fs.maxLen < p.underscored.fileName.length + n := by
        rw [p.length_underscored]; omega
      obtain ⟨k, hk1, hk2, hk3⟩ := ih fs p.underscored h'
      refine ⟨k + 1, ?_, ?_, ?_⟩
      · rw [show avoidFuel (n + 1) fs p = avoidFuel n fs p.underscored by
          simp [avoidFuel, hex]]
        rw [hk1, FilePath.underscoredIter_inner]
      · rw [← FilePath.underscoredIter_inner]; exact hk2
      · intro j hj
        match j with
        | 0 => exact hex
        | j + 1 =>
          rw [← FilePath.underscoredIter_inner]
          exact hk3 j (by omega)
    · have hex' : fs.pathExists p = false := by
        simpa using hex
      refine ⟨0, ?_, hex', fun j hj => absurd hj (by omega)⟩
      simp [avoidFuel, hex', FilePath.underscoredIter]

theorem avoid_spec (fs : Fs) (p : FilePath) :
    ∃ k, avoid fs p = FilePath.underscoredIter k p ∧
      fs.pathExists (FilePath.underscoredIter k p) = false ∧
      ∀ j, j < k → fs.pathExists (FilePath.underscoredIter j p) = true :=
  avoidFuel_spec (fs.maxLen + 1) fs p (by omega)

theorem mkdirStep_files (cfg : Config) (fs : Fs) (d : FilePath) :
    (mkdirStep cfg fs d).files = fs.files := by
  unfold mkdirStep Fs.createDirAll
  split <;> rfl

theorem Fs.rename_ok_mem (fs : Fs) (src dst : FilePath) (fs2 : Fs)
    (h : fs.rename src dst = .ok fs2) (p : FilePath) (hp : p ∈ fs.files)
    (hne : p ≠ src) : p ∈ fs2.files := by
  unfold Fs.rename at h
  split at h
  · cases h
  · split at h
    · cases h
    · cases h
      have hp' : p ∈ fs.files.erase src := (List.mem_erase_of_ne hne).mpr hp
      by_cases hdst : dst ∈ fs.files.erase src
      · simpa [hdst] using hp'
      · simp only [hdst, if_false]
        rw [List.concat_eq_append]
        exact List.mem_append_left _ hp'

theorem renameStep_mem_files (cfg : Config) (s : ExecState)
    (pr : FilePath × FilePath) (p : FilePath) (hp : p ∈ s.fs.files)
    (hne : p ≠ pr.1) : p ∈ (renameStep cfg s pr).fs.files := by
  have hp1 : p ∈ (mkdirStep cfg s.fs (destOf cfg s.fs pr.2)).files := by
    rw [mkdirStep_files]; exact hp
  simp only [renameStep]
  split
  · exact hp1
  · split
    · next fs2 hok => exact Fs.rename_ok_mem _ _ _ _ hok p hp1 hne
    · exact hp1

theorem renameStep_inv (cfg : Config) (s : ExecState) (pr : FilePath × FilePath)
    (h : s.withErr = true ↔ .failed ∈ s.outcomes) :
    (renameStep cfg s pr).withErr = true ↔
      .failed ∈ (renameStep cfg s pr).outcomes := by
  simp only [renameStep]
  split
  · simpa [List.concat_eq_append] using h
  · split
    · simpa [List.concat_eq_append] using h
    · simp [List.concat_eq_append]

theorem rename_files_inv (cfg : Config) :
    ∀ (pairs : List (FilePath × FilePath)) (s : ExecState),
    (s.withErr = true ↔ .failed ∈ s.outcomes) →
    ((rename_files cfg s pairs).withErr = true ↔
      .failed ∈ (rename_files cfg s pairs).outcomes) := by
  intro pairs
  induction pairs with
  | nil => intro s h; exact h
  | cons pr rest ih => intro s h; exact ih _ (renameStep_inv cfg s pr h)

theorem renameRun_withErr_iff (cfg : Config) (fs : Fs)
    (pairs : List (FilePath × FilePath)) :
    (renameRun cfg fs pairs).withErr = true ↔
      .failed ∈ (renameRun cfg fs pairs).outcomes :=
  rename_files_inv cfg pairs (initState cfg fs) (by simp [initState])

theorem renameStep_outcomes_len (cfg : Config) (s : ExecState)
    (pr : FilePath × FilePath) :
    (renameStep cfg s pr).outcomes.length = s.outcomes.length + 1 := by
  simp only [renameStep]
  split
  · simp
  · split <;> simp

theorem rename_files_outcomes_len (cfg : Config) :
    ∀ (pairs : List (FilePath × FilePath)) (s : ExecState),
    (rename_files cfg s pairs).outcomes.length =
      s.outcomes.length + pairs.length := by
  intro pairs
  induction pairs with
  | nil => intro s; simp [rename_files]
  | cons pr rest ih =>
    intro s
    have h1 : rename_files cfg s (pr :: rest) =
        rename_files cfg (renameStep cfg s pr) rest := rfl
    rw [h1, ih, renameStep_outcomes_len]
    simp [List.length_cons]
    omega

theorem renameStep_test_fs (cfg : Config) (s : ExecState)
    (pr : FilePath × FilePath) (ht : cfg.testMode = true) :
    (renameStep cfg s pr).fs = mkdirStep cfg s.fs (destOf cfg s.fs pr.2) := by
  simp [renameStep, ht]

theorem renameStep_test_files (cfg : Config) (s : ExecState)
    (pr : FilePath × FilePath) (ht : cfg.testMode = true) :
    (renameStep cfg s pr).fs.files = s.fs.files := by
  rw [renameStep_test_fs cfg s pr ht, mkdirStep_files]

theorem mkdirStep_nomkdir (cfg : Config) (fs : Fs) (d : FilePath)
    (hm : cfg.mkdir = false) : mkdirStep cfg fs d = fs := by
  simp [mkdirStep, hm]

theorem renameStep_test_outcomes (cfg : Config) (s : ExecState)
    (pr : FilePath × FilePath) (ht : cfg.testMode = true) :
    (renameStep cfg s pr).outcomes = s.outcomes.concat .skipped := by
  simp [renameStep, ht]

theorem rename_files_test (cfg : Config) (ht : cfg.testMode = true) :
    ∀ (pairs : List (FilePath × FilePath)) (s : ExecState),
      (rename_files cfg s pairs).fs.files = s.fs.files ∧
      (cfg.mkdir = false → (rename_files cfg s pairs).fs = s.fs) ∧
      (∀ o ∈ (rename_files cfg s pairs).outcomes, o ∈ s.outcomes ∨ o = .skipped) := by
  intro pairs
  induction pairs with
  | nil => intro s; exact ⟨rfl, fun _ => rfl, fun o ho => .inl ho⟩
  | cons pr rest ih =>
    intro s
    have hstep : rename_files cfg s (pr :: rest) =
        rename_files cfg (renameStep cfg s pr) rest := rfl
    obtain ⟨h1, h2, h3⟩ := ih (renameStep cfg s pr)
    refine ⟨?_, ?_, ?_⟩
    · rw [hstep, h1, renameStep_test_files cfg s pr ht]
    · intro hm
      rw [hstep, h2 hm, renameStep_test_fs cfg s pr ht, mkdirStep_nomkdir cfg _ _ hm]
    · intro o ho
      rw [hstep] at ho
      rcases h3 o ho with hmem | hsk
      · rw [renameStep_test_outcomes cfg s pr ht, List.concat_eq_append] at hmem
        rcases List.mem_append.mp hmem with hmem' | hmem'
        · exact .inl hmem'
        · simp only [List.mem_singleton] at hmem'
          exact .inr hmem'
      · exact .inr hsk

theorem renameStep_test_map (cfg : Config) (s : ExecState)
    (pr : FilePath × FilePath) (ht : cfg.testMode = true) :
    (renameStep cfg s pr).map = s.map.map (insertEntry (stepDest cfg s pr) pr.1) := by
  simp [renameStep, ht, stepDest]

theorem renameStep_real_map (cfg : Config) (s : ExecState)
    (pr : FilePath × FilePath) (ht : cfg.testMode = false)
    (hok : stepRenameOk cfg s pr = true) :
    (renameStep cfg s pr).map = s.map.map (insertEntry (stepDest cfg s pr) pr.1) := by
  unfold stepRenameOk stepDest at hok
  simp only [renameStep, ht, if_neg Bool.false_ne_true]
  split
  · rfl
  · next reason herr =>
    rw [herr] at hok
    cases hok

theorem agree_maps_eq (cfgR cfgD : Config) (hR : cfgR.testMode = false)
    (hD : cfgD.testMode = true) :
    ∀ (pairs : List (FilePath × FilePath)) (sR sD : ExecState),
      sR.map = sD.map →
      agreeOk cfgR cfgD sR sD pairs = true →
      (rename_files cfgR sR pairs).map = (rename_files cfgD sD pairs).map := by
  intro pairs
  induction pairs with
  | nil => intro sR sD hm _; exact hm
  | cons pr rest ih =>
    intro sR sD hm hagree
    simp only [agreeOk, Bool.and_eq_true, decide_eq_true_eq] at hagree
    obtain ⟨⟨hdest, hok⟩, hrest⟩ := hagree
    exact ih (renameStep cfgR sR pr) (renameStep cfgD sD pr)
      (by rw [renameStep_real_map cfgR sR pr hR hok,
        renameStep_test_map cfgD sD pr hD, hdest, hm]) hrest

theorem foldl_hmInsert_eq_append :
    ∀ (entries m : List (String × String)),
      (∀ e ∈ entries, ∀ e' ∈ m, e.1 ≠ e'.1) →
      entries.Pairwise (fun a b => a.1 ≠ b.1) →
      entries.foldl hmInsert m = m ++ entries := by
  intro entries
  induction entries with
  | nil => intro m _ _; simp
  | cons e rest ih =>
    intro m hdisj huniq
    have hany : m.any (fun x => x.1 = e.1) = false := by
      rw [List.any_eq_false]
      intro x hx
      simp only [decide_eq_true_eq]
      exact fun hx1 => hdisj e (List.mem_cons_self e rest) x hx hx1.symm
    have hstep : hmInsert m e = m ++ [e] := by
      simp [hmInsert, hany, List.concat_eq_append]
    rw [List.foldl_cons, hstep,
      ih (m ++ [e]) ?_ (List.Pairwise.of_cons huniq)]
    · simp
    · intro x hx e' he'
      rcases List.mem_append.mp he' with h | h
      · exact hdisj x (List.mem_cons_of_mem e hx) e' h
      · simp only [List.mem_singleton] at h
        subst h
        exact fun hx1 => (List.pairwise_cons.mp huniq).1 x hx hx1.symm

theorem hmOfEntries_eq (entries : List (String × String))
    (huniq : entries.Pairwise (fun a b => a.1 ≠ b.1)) :
    hmOfEntries entries = entries := by
  have h := foldl_hmInsert_eq_append entries []
    (by intro e _ e' he'; cases he') huniq
  simpa [hmOfEntries] using h

theorem mainExit_error (e : SourceErr) (g w : Bool) :
    mainExit (.error e) g w = 1 := rfl

theorem mainExit_ok (r : Resolved) (g w : Bool) :
    mainExit (.ok r) g w =
      if g = true ∧ w = true then 1
      else if (renameRun r.cfg r.fs r.pairs).withErr = true then 1 else 0 := by
  by_cases hg : g = true ∧ w = true
  · simp [mainExit, run_app, hg]
  · cases hw : (renameRun r.cfg r.fs r.pairs).withErr
    · simp [mainExit, run_app, hg, hw]
    · simp [mainExit, run_app, hg, hw]

theorem new_regex_ne_missing (compile : String → Except SourceErr Rgx)
    (hcompile : ∀ p, compile p ≠ .error .missingSource) (pattern : String)
    (depth maxDepth : Option Nat) :
    new_regex compile pattern depth maxDepth ≠ .error .missingSource := by
  intro h
  unfold new_regex at h
  cases hc : compile pattern with
  | ok re => rw [hc] at h; cases h
  | error e =>
    rw [hc] at h
    simp only [Except.map] at h
    injection h with h'
    exact absurd (h' ▸ hc) (hcompile pattern)

theorem new_sort_ne_missing (order : String) :
    new_sort order ≠ .error .missingSource := by
  intro h
  unfold new_sort at h
  split at h
  · cases h
  · cases h
  · injection h with h'
    cases h'

theorem new_map_ne_missing (hashIter : List (String × String) → List (String × String))
    (contents : Except SourceErr (List (String × String)))
    (hc : contents ≠ .error .missingSource) :
    new_map hashIter contents ≠ .error .missingSource := by
  intro h
  unfold new_map at h
  cases contents with
  | ok entries => cases h
  | error e =>
    simp only [Except.map] at h
    injection h with h'
    exact hc (by rw [h'])

/-! ## Claims -/

/-- C1: when overwrite is not permitted, the executor's destination for a
pair is obtained by repeatedly prepending an underscore to the file name,
re-checking existence after each transformation, and is the first
underscore-prefixed variant that does not exist on the current
filesystem; every pre-existing entry other than the pair's input (in
particular the original and intermediate destinations) is still present
after the pair is processed. -/
theorem claim_C1 (cfg : Config) (s : ExecState) (input out : FilePath)
    (hov : cfg.overwrite = false) :
    (∃ k, destOf cfg s.fs out = FilePath.underscoredIter k out ∧
      s.fs.pathExists (FilePath.underscoredIter k out) = false ∧
      ∀ j, j < k → s.fs.pathExists (FilePath.underscoredIter j out) = true) ∧
    ∀ p ∈ s.fs.files, p ≠ input → p ∈ (renameStep cfg s (input, out)).fs.files := by
  constructor
  · rw [show destOf cfg s.fs out = avoid s.fs out by simp [destOf, hov]]
    exact avoid_spec s.fs out
  · intro p hp hne
    exact renameStep_mem_files cfg s (input, out) p hp hne

/-- C1 witness: a filesystem holding `out.txt` and `_out.txt` makes the
executor select `__out.txt` (two underscores) and leave the blocking
entries in place. -/
theorem claim_C1_witness :
    (∃ k, destOf ⟨false, false, false, false⟩
        (ExecState.mk ⟨[⟨"", "out.txt"⟩, ⟨"", "_out.txt"⟩], []⟩ none false [] []).fs
        ⟨"", "out.txt"⟩ = FilePath.underscoredIter k ⟨"", "out.txt"⟩ ∧
      (ExecState.mk ⟨[⟨"", "out.txt"⟩, ⟨"", "_out.txt"⟩], []⟩ none false [] []).fs.pathExists
        (FilePath.underscoredIter k ⟨"", "out.txt"⟩) = false ∧
      ∀ j, j < k →
        (ExecState.mk ⟨[⟨"", "out.txt"⟩, ⟨"", "_out.txt"⟩], []⟩ none false [] []).fs.pathExists
          (FilePath.underscoredIter j ⟨"", "out.txt"⟩) = true) ∧
    ∀ p ∈ (ExecState.mk ⟨[⟨"", "out.txt"⟩, ⟨"", "_out.txt"⟩], []⟩ none false [] []).fs.files,
      p ≠ ⟨"", "in.txt"⟩ →
      p ∈ (renameStep ⟨false, false, false, false⟩
        (ExecState.mk ⟨[⟨"", "out.txt"⟩, ⟨"", "_out.txt"⟩], []⟩ none false [] [])
        (⟨"", "in.txt"⟩, ⟨"", "out.txt"⟩)).fs.files :=
  claim_C1 ⟨false, false, false, false⟩
    (ExecState.mk ⟨[⟨"", "out.txt"⟩, ⟨"", "_out.txt"⟩], []⟩ none false [] [])
    ⟨"", "in.txt"⟩ ⟨"", "out.txt"⟩ rfl

/-- C2 counterexample: the claim says a dry run performs no filesystem
mutation at all, in particular creates no directory; but directory
auto-creation is not guarded by test mode (main.rs lines 75-79), so a
dry run with `mkdir` enabled creates the missing parent directory `d`. -/
theorem claim_C2_counterexample :
    (Config.mk true false false true).testMode = true ∧
    (renameRun (Config.mk true false false true) ⟨[⟨"", "a"⟩], []⟩
        [(⟨"", "a"⟩, ⟨"d", "b"⟩)]).fs ≠ (⟨[⟨"", "a"⟩], []⟩ : Fs) :=
  ⟨rfl, by decide⟩

/-- C2 (amended): a dry run attempts no rename (every outcome is
`Skipped`) and leaves the set of files unchanged; when directory
auto-creation is disabled the filesystem is entirely unchanged.  (The
original claim fails only because, with `mkdir` enabled, missing parent
directories are created even in a dry run.) -/
theorem claim_C2_amended (cfg : Config) (fs : Fs)
    (pairs : List (FilePath × FilePath)) (ht : cfg.testMode = true) :
    (renameRun cfg fs pairs).fs.files = fs.files ∧
    (∀ o ∈ (renameRun cfg fs pairs).outcomes, o = .skipped) ∧
    (cfg.mkdir = false → (renameRun cfg fs pairs).fs = fs) := by
  obtain ⟨h1, h2, h3⟩ := rename_files_test cfg ht pairs (initState cfg fs)
  refine ⟨h1, ?_, h2⟩
  intro o ho
  rcases h3 o ho with hmem | hsk
  · simp [initState] at hmem
  · exact hsk

/-- C2 witness: a dry run with `mkdir` enabled still leaves the files
untouched and skips every pair. -/
theorem claim_C2_witness :
    (renameRun (Config.mk true false false true) ⟨[⟨"", "a"⟩], []⟩
        [(⟨"", "a"⟩, ⟨"d", "b"⟩)]).fs.files = (⟨[⟨"", "a"⟩], []⟩ : Fs).files ∧
    (∀ o ∈ (renameRun (Config.mk true false false true) ⟨[⟨"", "a"⟩], []⟩
        [(⟨"", "a"⟩, ⟨"d", "b"⟩)]).outcomes, o = Outcome.skipped) ∧
    ((Config.mk true false false true).mkdir = false →
      (renameRun (Config.mk true false false true) ⟨[⟨"", "a"⟩], []⟩
        [(⟨"", "a"⟩, ⟨"d", "b"⟩)]).fs = (⟨[⟨"", "a"⟩], []⟩ : Fs)) :=
  claim_C2_amended (Config.mk true false false true) ⟨[⟨"", "a"⟩], []⟩
    [(⟨"", "a"⟩, ⟨"d", "b"⟩)] rfl

/-- C5: the aggregate failure flag is true iff at least one pair's rename
attempt failed, and a run over zero pairs returns a false flag. -/
theorem claim_C5 (cfg : Config) (fs : Fs) (pairs : List (FilePath × FilePath)) :
    ((renameRun cfg fs pairs).withErr = true ↔
      Outcome.failed ∈ (renameRun cfg fs pairs).outcomes) ∧
    (renameRun cfg fs []).withErr = false :=
  ⟨renameRun_withErr_iff cfg fs pairs, rfl⟩

/-- C3 counterexample: two pairs whose computed destinations coincide.
The real run renames `a` to `out` and then, seeing `out` occupied,
renames `b` to `_out`, recording two entries; the dry run never mutates
the filesystem, computes `out` for both pairs and records a single
overwritten entry.  The two result maps differ, refuting the claimed
exact equality for every pairing sequence. -/
theorem claim_C3_counterexample :
    (renameRun (Config.mk true true false false) ⟨[⟨"", "a"⟩, ⟨"", "b"⟩], []⟩
        [(⟨"", "a"⟩, ⟨"", "out"⟩), (⟨"", "b"⟩, ⟨"", "out"⟩)]).map ≠
      (renameRun (Config.mk false true false false) ⟨[⟨"", "a"⟩, ⟨"", "b"⟩], []⟩
        [(⟨"", "a"⟩, ⟨"", "out"⟩), (⟨"", "b"⟩, ⟨"", "out"⟩)]).map := by
  decide

/-- C3 (amended): the dry-run result map equals the non-dry-run result
map over the same initial state provided the two runs stay in agreement:
at every step the collision-adjusted destination computed by the dry run
equals the one computed by the real run, and the real rename succeeds.
(Without this proviso the claim fails: a pair whose rename fails is
dropped only by the real run, and two pairs colliding on the same
destination are separated only by the real run.) -/
theorem claim_C3_amended (cfg : Config) (fs : Fs)
    (pairs : List (FilePath × FilePath))
    (hagree : agreeOk { cfg with testMode := false } { cfg with testMode := true }
      (initState { cfg with testMode := false } fs)
      (initState { cfg with testMode := true } fs) pairs = true) :
    (renameRun { cfg with testMode := true } fs pairs).map =
      (renameRun { cfg with testMode := false } fs pairs).map :=
  (agree_maps_eq { cfg with testMode := false } { cfg with testMode := true }
    rfl rfl pairs (initState { cfg with testMode := false } fs)
    (initState { cfg with testMode := true } fs) rfl hagree).symm

/-- C3 witness: two non-colliding pairs whose renames succeed give the
same result map in dry-run and real mode. -/
theorem claim_C3_witness :
    (renameRun { Config.mk false true false false with testMode := true }
        ⟨[⟨"", "a"⟩, ⟨"", "b"⟩], []⟩
        [(⟨"", "a"⟩, ⟨"", "outA"⟩), (⟨"", "b"⟩, ⟨"", "outB"⟩)]).map =
      (renameRun { Config.mk false true false false with testMode := false }
        ⟨[⟨"", "a"⟩, ⟨"", "b"⟩], []⟩
        [(⟨"", "a"⟩, ⟨"", "outA"⟩), (⟨"", "b"⟩, ⟨"", "outB"⟩)]).map :=
  claim_C3_amended (Config.mk false true false false)
    ⟨[⟨"", "a"⟩, ⟨"", "b"⟩], []⟩
    [(⟨"", "a"⟩, ⟨"", "outA"⟩), (⟨"", "b"⟩, ⟨"", "outB"⟩)] (by decide)

/-- C4 counterexample: the claim says the Mapping source yields the
pairs in file order, parsed directly rather than through a hash-based
structure; but `Source::new_map` deserializes into a `HashMap` and
collects its iteration, whose order is unspecified.  Reversal is a
legitimate iteration order of a two-entry hash map (first conjunct: it
permutes the entries), and under it the constructed sequence is not in
file order. -/
theorem claim_C4_counterexample :
    ([("a", "1"), ("b", "2")] : List (String × String)).reverse.Perm
        [("a", "1"), ("b", "2")] ∧
    new_map List.reverse (.ok [("a", "1"), ("b", "2")]) ≠
      .ok (Source.map [("a", "1"), ("b", "2")]) := by
  constructor
  · exact List.reverse_perm _
  · intro h
    injection h with h'
    exact absurd h' (by decide)

/-- C4 (amended): for a well-formed mapping file with unique keys, the
Mapping source yields some permutation of the file's (key, value) pairs
— the multiset of entries is preserved, but the order is that of the
intermediate hash map's iteration, not necessarily file order. -/
theorem claim_C4_amended
    (hashIter : List (String × String) → List (String × String))
    (entries : List (String × String))
    (hperm : ∀ l, (hashIter l).Perm l)
    (huniq : entries.Pairwise (fun a b => a.1 ≠ b.1)) :
    ∃ l, new_map hashIter (.ok entries) = .ok (.map l) ∧ l.Perm entries := by
  refine ⟨hashIter (hmOfEntries entries), rfl, ?_⟩
  rw [hmOfEntries_eq entries huniq]
  exact hperm entries

/-- C4 witness: a two-entry mapping under a reversing hash iteration
still yields a permutation of the file's entries. -/
theorem claim_C4_witness :
    ∃ l, new_map List.reverse (.ok [("k1", "v1"), ("k2", "v2")]) = .ok (.map l) ∧
      l.Perm [("k1", "v1"), ("k2", "v2")] :=
  claim_C4_amended List.reverse [("k1", "v1"), ("k2", "v2")]
    (fun l => l.reverse_perm) (by decide)

/-- C6: the process exit code is always 0 or 1, and it is 0 exactly when
the configuration resolved successfully, writing the requested result map
did not fail, and no individual rename failed; hence exit code 0 implies
a resolved configuration with every rename succeeded, and any
configuration error or rename failure forces exit code 1. -/
theorem claim_C6 (resolved : Except SourceErr Resolved) (generate writeFails : Bool) :
    (mainExit resolved generate writeFails = 0 ∨
      mainExit resolved generate writeFails = 1) ∧
    (mainExit resolved generate writeFails = 0 ↔
      ∃ r, resolved = .ok r ∧ ¬(generate = true ∧ writeFails = true) ∧
        Outcome.failed ∉ (renameRun r.cfg r.fs r.pairs).outcomes) := by
  cases resolved with
  | error e =>
    refine ⟨.inr (mainExit_error e generate writeFails), ?_⟩
    constructor
    · intro h
      rw [mainExit_error] at h
      cases h
    · rintro ⟨r, hr, -, -⟩; cases hr
  | ok r =>
    have hrw := renameRun_withErr_iff r.cfg r.fs r.pairs
    have hme := mainExit_ok r generate writeFails
    by_cases hg : generate = true ∧ writeFails = true
    · rw [if_pos hg] at hme
      refine ⟨.inr hme, ?_⟩
      constructor
      · intro h
        rw [hme] at h
        cases h
      · rintro ⟨r', hr', hgw, -⟩
        exact absurd hg hgw
    · rw [if_neg hg] at hme
      cases hw : (renameRun r.cfg r.fs r.pairs).withErr with
      | false =>
        rw [hw] at hme
        simp only [Bool.false_eq_true, if_false] at hme
        refine ⟨.inl hme, ?_⟩
        constructor
        · intro _
          refine ⟨r, rfl, hg, fun hmem => ?_⟩
          rw [hrw.mpr hmem] at hw
          cases hw
        · intro _; exact hme
      | true =>
        rw [hw] at hme
        simp only [if_true] at hme
        refine ⟨.inr hme, ?_⟩
        constructor
        · intro h0
          rw [hme] at h0
          cases h0
        · rintro ⟨r', hr', -, hnm⟩
          injection hr' with hr''
          subst hr''
          exact absurd (hrw.mp hw) hnm

/-- C7: a Pattern source built with no explicit depth resolves its depth
to the count of path-separator characters in the pattern text plus 1. -/
theorem claim_C7 (compile : String → Except SourceErr Rgx) (pattern : String)
    (maxDepth : Option Nat) (re : Rgx) (d : Nat) (mx : Option Nat)
    (h : new_regex compile pattern none maxDepth = .ok (.regex re d mx)) :
    d = (pattern.toList.filter (fun c => c = MAIN_SEPARATOR)).length + 1 := by
  unfold new_regex at h
  cases hc : compile pattern with
  | error e => rw [hc] at h; cases h
  | ok re' =>
    rw [hc] at h
    simp only [Except.map, Except.ok.injEq, Source.regex.injEq, Option.getD] at h
    exact h.2.1.symm

/-- C7 witness: the pattern `ab/c(d)/e` has two separators and resolves
to depth 3. -/
theorem claim_C7_witness :
    (3 : Nat) = ("ab/c(d)/e".toList.filter (fun c => c = MAIN_SEPARATOR)).length + 1 :=
  claim_C7 (fun p => .ok ⟨p⟩) "ab/c(d)/e" none ⟨"ab/c(d)/e"⟩ 3 none rfl

/-- C8: sort-order construction matches the token case-insensitively
(`ASC`, `asc` and `Asc` all yield Ascending), and any token whose
lowercasing is neither `asc` nor `desc` fails with the sort-order error
echoing the offending token verbatim. -/
theorem claim_C8 :
    (new_sort "ASC" = .ok (.sort .asc) ∧ new_sort "asc" = .ok (.sort .asc) ∧
      new_sort "Asc" = .ok (.sort .asc)) ∧
    ∀ token : String, toLowercase token ≠ "asc" → toLowercase token ≠ "desc" →
      new_sort token = .error (.sortOrder token) := by
  refine ⟨⟨by decide, by decide, by decide⟩, ?_⟩
  intro token h1 h2
  unfold new_sort
  split
  · next heq => exact absurd heq h1
  · next heq => exact absurd heq h2
  · rfl

/-- C8 witness: the token `ascending` is rejected with the error echoing
it verbatim. -/
theorem claim_C8_witness :
    new_sort "ascending" = .error (.sortOrder "ascending") :=
  claim_C8.2 "ascending" (by decide) (by decide)

/-- C9: a pair whose rename attempt fails is handled locally: the
aggregate failure flag is set, a diagnostic identifying the failed input
and the I/O reason is appended, the pair's entry is not recorded in the
result map, and the executor goes on to process every remaining pair of
the batch (one outcome per remaining pair). -/
theorem claim_C9 (cfg : Config) (s : ExecState) (input out : FilePath)
    (rest : List (FilePath × FilePath)) (reason : String)
    (ht : cfg.testMode = false)
    (hfail : (mkdirStep cfg s.fs (destOf cfg s.fs out)).rename input
      (destOf cfg s.fs out) = .error reason) :
    (renameStep cfg s (input, out)).withErr = true ∧
    (renameStep cfg s (input, out)).diags = s.diags.concat (input, reason) ∧
    (renameStep cfg s (input, out)).map = s.map ∧
    rename_files cfg s ((input, out) :: rest) =
      rename_files cfg (renameStep cfg s (input, out)) rest ∧
    (rename_files cfg (renameStep cfg s (input, out)) rest).outcomes.length =
      s.outcomes.length + 1 + rest.length := by
  have hstep : renameStep cfg s (input, out) =
      { s with
        fs := mkdirStep cfg s.fs (destOf cfg s.fs out)
        withErr := true
        diags := s.diags.concat (input, reason)
        outcomes := s.outcomes.concat .failed } := by
    simp [renameStep, ht, hfail]
  refine ⟨by rw [hstep], by rw [hstep], by rw [hstep], rfl, ?_⟩
  rw [rename_files_outcomes_len, hstep]
  simp [List.concat_eq_append]

/-- C9 witness: a rename failing because its input does not exist sets
the flag, emits the diagnostic, records nothing, and the remaining pair
is still processed. -/
theorem claim_C9_witness :
    (renameStep (Config.mk false true false false)
        (ExecState.mk ⟨[], []⟩ (some []) false [] [])
        (⟨"", "ghost"⟩, ⟨"", "out"⟩)).withErr = true ∧
    (renameStep (Config.mk false true false false)
        (ExecState.mk ⟨[], []⟩ (some []) false [] [])
        (⟨"", "ghost"⟩, ⟨"", "out"⟩)).diags =
      (ExecState.mk (Fs.mk [] []) (some []) false [] []).diags.concat
        (⟨"", "ghost"⟩, "No such file or directory") ∧
    (renameStep (Config.mk false true false false)
        (ExecState.mk ⟨[], []⟩ (some []) false [] [])
        (⟨"", "ghost"⟩, ⟨"", "out"⟩)).map =
      (ExecState.mk (Fs.mk [] []) (some []) false [] []).map ∧
    rename_files (Config.mk false true false false)
        (ExecState.mk ⟨[], []⟩ (some []) false [] [])
        ((⟨"", "ghost"⟩, ⟨"", "out"⟩) :: [(⟨"", "x"⟩, ⟨"", "y"⟩)]) =
      rename_files (Config.mk false true false false)
        (renameStep (Config.mk false true false false)
          (ExecState.mk ⟨[], []⟩ (some []) false [] [])
          (⟨"", "ghost"⟩, ⟨"", "out"⟩)) [(⟨"", "x"⟩, ⟨"", "y"⟩)] ∧
    (rename_files (Config.mk false true false false)
        (renameStep (Config.mk false true false false)
          (ExecState.mk ⟨[], []⟩ (some []) false [] [])
          (⟨"", "ghost"⟩, ⟨"", "out"⟩)) [(⟨"", "x"⟩, ⟨"", "y"⟩)]).outcomes.length =
      (ExecState.mk (Fs.mk [] []) (some []) false [] []).outcomes.length + 1 + 1 :=
  claim_C9 (Config.mk false true false false)
    (ExecState.mk ⟨[], []⟩ (some []) false [] [])
    ⟨"", "ghost"⟩ ⟨"", "out"⟩ [(⟨"", "x"⟩, ⟨"", "y"⟩)]
    "No such file or directory" rfl (by decide)

/-- C10 counterexample: the claim says that with several selectors
provided resolution does not fail and that an error is produced only
when none is provided; but with both a sort token and a mapping file
given, an invalid sort token still makes resolution fail. -/
theorem claim_C10_counterexample :
    read_source (fun p => .ok ⟨p⟩) id (fun _ => .ok [("x", "y")])
        none (some "ascending") (some "mapfile") =
      .error (.sortOrder "ascending") := by decide

/-- C10 (amended): providing several selectors is never by itself an
error: the pattern selector takes precedence over the sort selector,
which takes precedence over the mapping selector, and the
missing-selector configuration error occurs exactly when none of the
three is provided — but the selected constructor may still fail on its
own invalid input. -/
theorem claim_C10_amended (compile : String → Except SourceErr Rgx)
    (hashIter : List (String × String) → List (String × String))
    (readMapFile : String → Except SourceErr (List (String × String)))
    (hcompile : ∀ p, compile p ≠ .error .missingSource)
    (hread : ∀ f, readMapFile f ≠ .error .missingSource) :
    (∀ pattern sortOpt mapOpt,
      read_source compile hashIter readMapFile (some pattern) sortOpt mapOpt =
        new_regex compile pattern none none) ∧
    (∀ order mapOpt,
      read_source compile hashIter readMapFile none (some order) mapOpt =
        new_sort order) ∧
    (∀ filename,
      read_source compile hashIter readMapFile none none (some filename) =
        new_map hashIter (readMapFile filename)) ∧
    (∀ regex sortOpt mapOpt,
      read_source compile hashIter readMapFile regex sortOpt mapOpt =
          .error .missingSource ↔
        regex = none ∧ sortOpt = none ∧ mapOpt = none) := by
  refine ⟨?_, ?_, fun _ => rfl, ?_⟩
  · intro pattern sortOpt mapOpt
    cases sortOpt <;> cases mapOpt <;> rfl
  · intro order mapOpt
    cases mapOpt <;> rfl
  · intro regex sortOpt mapOpt
    cases regex with
    | some pattern =>
      cases sortOpt <;> cases mapOpt <;>
        exact ⟨fun h =>
            absurd h (new_regex_ne_missing compile hcompile pattern none none),
          fun hh => nomatch hh.1⟩
    | none =>
      cases sortOpt with
      | some order =>
        cases mapOpt <;>
          exact ⟨fun h => absurd h (new_sort_ne_missing order),
            fun hh => nomatch hh.2.1⟩
      | none =>
        cases mapOpt with
        | some filename =>
          exact ⟨fun h => absurd h
              (new_map_ne_missing hashIter (readMapFile filename) (hread filename)),
            fun hh => nomatch hh.2.2⟩
        | none => exact ⟨fun _ => ⟨rfl, rfl, rfl⟩, fun _ => rfl⟩

/-- C10 witness: with the sort selector present (and the others absent),
resolution dispatches to the sort constructor. -/
theorem claim_C10_witness :
    read_source (fun p => .ok ⟨p⟩) id (fun _ => .ok []) none (some "asc") none =
      new_sort "asc" :=
  (claim_C10_amended (fun p => .ok ⟨p⟩) id (fun _ => .ok [])
    (fun p h => by cases h) (fun f h => by cases h)).2.1 "asc" none

end Nomino
